import Mathlib

/-!
Shallow embedding of the Speedscope profile parser
(`apps/api/src/parser/speedscope.ts`).

JavaScript numbers are modelled as `ℚ` (every value appearing in the
claims is exact in both); `NaN`/`Infinity` inputs, which `asNumber`
rejects, are not representable.  A decoded JSON/JS value is `JsVal`,
with `undef` standing for JavaScript `undefined` (what property access
on a missing key yields).  `String(...)` conversion is `jsToString`;
its number case uses the Lean rendering of `ℚ`, which differs textually
from JS for non-integers but is never exercised by string-typed fields.
The single `SpeedscopeParseError` class carries only a message; each
distinct throw site is modelled as its own `ParseError` constructor
carrying the data interpolated into that message.
-/

namespace Speedscope

inductive JsVal where
  | undef : JsVal
  | null : JsVal
  | bool : Bool → JsVal
  | num : ℚ → JsVal
  | str : String → JsVal
  | arr : List JsVal → JsVal
  | obj : List (String × JsVal) → JsVal
deriving Repr

/-- JS property access `record.key`: first binding wins, missing keys
give `undefined`. -/
def getField : List (String × JsVal) → String → JsVal
  | [], _ => .undef
  | (k, v) :: rest, key => if k = key then v else getField rest key

/-- JS nullish coalescing `v ?? dflt`. -/
def nullish (v dflt : JsVal) : JsVal :=
  match v with
  | .undef => dflt
  | .null => dflt
  | _ => v

mutual

/-- Element conversion used by JS `Array.prototype.join`:
`null`/`undefined` become the empty string. -/
def jsElem : JsVal → String
  | .undef => ""
  | .null => ""
  | .bool b => if b then "true" else "false"
  | .num q => toString q
  | .str s => s
  | .arr xs => jsArrJoin xs
  | .obj _ => "[object Object]"

/-- JS `Array.prototype.toString`: elements joined with commas. -/
def jsArrJoin : List JsVal → String
  | [] => ""
  | [v] => jsElem v
  | v :: rest => jsElem v ++ "," ++ jsArrJoin rest

end

/-- JS `String(v)`. -/
def jsToString : JsVal → String
  | .undef => "undefined"
  | .null => "null"
  | .bool b => if b then "true" else "false"
  | .num q => toString q
  | .str s => s
  | .arr xs => jsArrJoin xs
  | .obj _ => "[object Object]"

/-- One constructor per `throw new SpeedscopeParseError(...)` site,
carrying the data interpolated into that site's message. -/
inductive ParseError where
  | notAnObject
  | missingShared
  | invalidFrames
  | missingProfiles
  | invalidFrameEntry (idx : ℕ)
  | invalidProfile (idx : ℕ)
  | unsupportedProfileType (idx : ℕ) (t : String)
  | noMeasurableActivity
  | missingSamples (p : ℕ)
  | invalidWeight (p s : ℕ)
  | invalidFrameRef (p s : ℕ)
  | missingMetrics (f : ℕ)
  | invalidLeafFrame (p s : ℕ)
  | missingTopMetrics (f : ℕ)
  | tooFewEvents (p : ℕ)
  | invalidEventEntry (p i : ℕ)
  | invalidEventFrame (p i : ℕ)
  | invalidEventTimestamp (p i : ℕ)
  | nonMonotonicTimestamps (p : ℕ)
  | unbalancedStack (p i : ℕ) (expected : Option ℕ) (got : ℕ)
  | invalidEventType (p i : ℕ) (t : String)
  | unclosedFrames (p : ℕ)
  | missingEventMetrics (f : ℕ)
  | missingEventTopMetrics (f : ℕ)
deriving Repr, DecidableEq

/-- `asRecord`: accepts exactly non-null non-array objects. -/
def asRecord (v : JsVal) (e : ParseError) :
    Except ParseError (List (String × JsVal)) :=
  match v with
  | .obj fields => .ok fields
  | _ => .error e

/-- `asNumber`: accepts finite non-NaN numbers (every `ℚ` qualifies). -/
def asNumber (v : JsVal) (e : ParseError) : Except ParseError ℚ :=
  match v with
  | .num q => .ok q
  | _ => .error e

/-- `asIndex`: an integer in `[0, maxCount)`. -/
def asIndex (v : JsVal) (maxCount : ℕ) (e : ParseError) :
    Except ParseError ℕ :=
  match asNumber v e with
  | .error err => .error err
  | .ok q =>
      if q.den = 1 ∧ 0 ≤ q.num ∧ q.num < (maxCount : ℤ) then .ok q.num.toNat
      else .error e

structure FrameMetrics where
  name : String
  file : String
  selfTime : ℚ
  totalTime : ℚ
  sampleCount : ℕ
  hotspotScore : ℚ
deriving Repr, DecidableEq

structure Hotspot where
  name : String
  file : String
  selfTimeMs : ℚ
  totalTimeMs : ℚ
  sampleCount : ℕ
  inclusivePct : ℚ
  exclusivePct : ℚ
  rank : ℕ
deriving Repr, DecidableEq

structure ParsedProfileSummary where
  hotspots : List Hotspot
  totalSamples : ℤ
  profileCount : ℕ
deriving Repr, DecidableEq

/-- `Number(x.toFixed(digits))` (ties round up, as for the positive
values produced here). -/
def roundTo (digits : ℕ) (q : ℚ) : ℚ :=
  (⌊q * (10 : ℚ) ^ digits + 1 / 2⌋ : ℚ) / (10 : ℚ) ^ digits

/-- JS `Math.round`. -/
def jsRound (q : ℚ) : ℤ := ⌊q + 1 / 2⌋

/-- The metrics map `Map<number, FrameMetrics>` always has keys exactly
`0..frameCount-1` in insertion order, so it is modelled as a list
indexed by frame index.  This builds it from `shared.frames`. -/
def buildMetrics : List JsVal → ℕ → Except ParseError (List FrameMetrics)
  | [], _ => .ok []
  | f :: rest, idx =>
    match asRecord f (.invalidFrameEntry idx) with
    | .error e => .error e
    | .ok fr =>
      let name := jsToString (nullish (getField fr "name")
        (.str ("frame_" ++ toString idx)))
      let file := jsToString (nullish (getField fr "file") (.str "unknown"))
      match buildMetrics rest (idx + 1) with
      | .error e => .error e
      | .ok ms =>
          .ok ({ name := name, file := file, selfTime := 0, totalTime := 0,
                 sampleCount := 0, hotspotScore := 0 } :: ms)

/-- The loop over a sample's stack: each entry is validated as a frame
index and gets `weight` added to `totalTime` and `1` to `sampleCount`. -/
def addStackFrames (pIdx sIdx frameCount : ℕ) (w : ℚ) :
    List JsVal → List FrameMetrics → Except ParseError (List FrameMetrics)
  | [], ms => .ok ms
  | v :: rest, ms =>
    match asIndex v frameCount (.invalidFrameRef pIdx sIdx) with
    | .error e => .error e
    | .ok fi =>
      match ms.get? fi with
      | none => .error (.missingMetrics fi)
      | some m =>
          addStackFrames pIdx sIdx frameCount w rest
            (ms.set fi { m with totalTime := m.totalTime + w,
                                sampleCount := m.sampleCount + 1 })

/-- Weight resolution for sample `sIdx`: element `sIdx` of a non-empty
weights array (reading past its end yields `undefined`, which
`asNumber` rejects), else the default `1`. -/
def resolveWeight (pIdx sIdx : ℕ) (weights : List JsVal) :
    Except ParseError ℚ :=
  if 0 < weights.length then
    asNumber (weights.getD sIdx .undef) (.invalidWeight pIdx sIdx)
  else .ok 1

/-- The body of the per-sample loop in `parseSampledProfile`. -/
def processSample (pIdx sIdx frameCount : ℕ) (weights : List JsVal)
    (sampleVal : JsVal) (ms : List FrameMetrics) (observed : ℚ) :
    Except ParseError (List FrameMetrics × ℚ) :=
  match sampleVal with
  | .arr stack =>
    if stack.isEmpty then .ok (ms, observed)
    else
      match resolveWeight pIdx sIdx weights with
      | .error e => .error e
      | .ok w =>
        if w ≤ 0 then .ok (ms, observed)
        else
          match addStackFrames pIdx sIdx frameCount w stack ms with
          | .error e => .error e
          | .ok ms1 =>
            match asIndex (stack.getLastD .undef) frameCount
                (.invalidLeafFrame pIdx sIdx) with
            | .error e => .error e
            | .ok li =>
              match ms1.get? li with
              | none => .error (.missingTopMetrics li)
              | some m =>
                  .ok (ms1.set li { m with selfTime := m.selfTime + w },
                       observed + w)
  | _ => .ok (ms, observed)

def processSamples (pIdx frameCount : ℕ) (weights : List JsVal) :
    List JsVal → ℕ → List FrameMetrics → ℚ →
    Except ParseError (List FrameMetrics × ℚ)
  | [], _, ms, observed => .ok (ms, observed)
  | s :: rest, sIdx, ms, observed =>
    match processSample pIdx sIdx frameCount weights s ms observed with
    | .error e => .error e
    | .ok (ms1, obs1) =>
        processSamples pIdx frameCount weights rest (sIdx + 1) ms1 obs1

/-- `profile.weights` is used only when it is an array; any other value
(including absence) degrades to the empty list. -/
def weightsOf (profile : List (String × JsVal)) : List JsVal :=
  match getField profile "weights" with
  | .arr ws => ws
  | _ => []

def parseSampledProfile (profile : List (String × JsVal))
    (frameCount : ℕ) (ms : List FrameMetrics) (pIdx : ℕ) :
    Except ParseError (List FrameMetrics × ℚ) :=
  match getField profile "samples" with
  | .arr samples => processSamples pIdx frameCount (weightsOf profile) samples 0 ms 0
  | _ => .error (.missingSamples pIdx)

/-- The per-stack-entry loop of the evented delta attribution. -/
def addDeltaToStack (delta : ℚ) :
    List ℕ → List FrameMetrics → Except ParseError (List FrameMetrics)
  | [], ms => .ok ms
  | f :: rest, ms =>
    match ms.get? f with
    | none => .error (.missingEventMetrics f)
    | some m =>
        addDeltaToStack delta rest
          (ms.set f { m with totalTime := m.totalTime + delta,
                             sampleCount := m.sampleCount + 1 })

/-- The look-ahead phase of one evented iteration: when a next event
exists, its timestamp is decoded and the gap `nextAt - at` is attributed
to the stack as it stands **before** this event's push/pop is applied. -/
def eventDelta (pIdx i : ℕ) (atQ : ℚ) (rest : List JsVal)
    (stack : List ℕ) (ms : List FrameMetrics) (observed : ℚ) :
    Except ParseError (List FrameMetrics × ℚ) :=
  match rest with
  | [] => .ok (ms, observed)
  | nxt :: _ =>
    match asRecord nxt (.invalidEventEntry pIdx (i + 1)) with
    | .error e => .error e
    | .ok nf =>
      match asNumber (getField nf "at") (.invalidEventTimestamp pIdx (i + 1)) with
      | .error e => .error e
      | .ok nextAt =>
        let delta := nextAt - atQ
        if delta < 0 then .error (.nonMonotonicTimestamps pIdx)
        else
          match stack.getLast? with
          | none => .ok (ms, observed)
          | some top =>
            if 0 < delta then
              match addDeltaToStack delta stack ms with
              | .error e => .error e
              | .ok ms1 =>
                match ms1.get? top with
                | none => .error (.missingEventTopMetrics top)
                | some m =>
                    .ok (ms1.set top { m with selfTime := m.selfTime + delta },
                         observed + delta)
            else .ok (ms, observed)

/-- The evented replay loop.  The stack models the TS array with the
top at the back (`push`/`pop` at the end). -/
def runEvented (pIdx frameCount : ℕ) :
    List JsVal → ℕ → List ℕ → List FrameMetrics → ℚ →
    Except ParseError (List FrameMetrics × ℚ)
  | [], _, stack, ms, observed =>
    if stack.isEmpty then .ok (ms, observed)
    else .error (.unclosedFrames pIdx)
  | e :: rest, i, stack, ms, observed =>
    match asRecord e (.invalidEventEntry pIdx i) with
    | .error err => .error err
    | .ok ev =>
      let eventType := jsToString (nullish (getField ev "type") (.str ""))
      match asIndex (getField ev "frame") frameCount (.invalidEventFrame pIdx i) with
      | .error err => .error err
      | .ok frame =>
        match asNumber (getField ev "at") (.invalidEventTimestamp pIdx i) with
        | .error err => .error err
        | .ok atQ =>
          match eventDelta pIdx i atQ rest stack ms observed with
          | .error err => .error err
          | .ok (ms1, obs1) =>
            if eventType = "O" then
              runEvented pIdx frameCount rest (i + 1) (stack ++ [frame]) ms1 obs1
            else if eventType = "C" then
              match stack.getLast? with
              | none => .error (.unbalancedStack pIdx i none frame)
              | some closing =>
                if closing = frame then
                  runEvented pIdx frameCount rest (i + 1) stack.dropLast ms1 obs1
                else .error (.unbalancedStack pIdx i (some closing) frame)
            else .error (.invalidEventType pIdx i eventType)

def parseEventedProfile (profile : List (String × JsVal))
    (frameCount : ℕ) (ms : List FrameMetrics) (pIdx : ℕ) :
    Except ParseError (List FrameMetrics × ℚ) :=
  match getField profile "events" with
  | .arr events =>
    if events.length < 2 then .error (.tooFewEvents pIdx)
    else runEvented pIdx frameCount events 0 [] ms 0
  | _ => .error (.tooFewEvents pIdx)

def processProfiles (frameCount : ℕ) :
    List JsVal → ℕ → List FrameMetrics → ℚ →
    Except ParseError (List FrameMetrics × ℚ)
  | [], _, ms, total => .ok (ms, total)
  | p :: rest, pIdx, ms, total =>
    match asRecord p (.invalidProfile pIdx) with
    | .error e => .error e
    | .ok profile =>
      let ptype := jsToString (nullish (getField profile "type") (.str ""))
      if ptype = "sampled" then
        match parseSampledProfile profile frameCount ms pIdx with
        | .error e => .error e
        | .ok (ms1, obs) =>
            processProfiles frameCount rest (pIdx + 1) ms1 (total + obs)
      else if ptype = "evented" then
        match parseEventedProfile profile frameCount ms pIdx with
        | .error e => .error e
        | .ok (ms1, obs) =>
            processProfiles frameCount rest (pIdx + 1) ms1 (total + obs)
      else .error (.unsupportedProfileType pIdx ptype)

/-- Everything in `parseSpeedscopeProfile` up to and including the
profile loop: validation, metrics-map construction, and accumulation.
Returns the final metrics, the grand total observed time, and the
number of profile entries. -/
def processDocument (payload : JsVal) :
    Except ParseError (List FrameMetrics × ℚ × ℕ) :=
  match asRecord payload .notAnObject with
  | .error e => .error e
  | .ok root =>
    match asRecord (getField root "shared") .missingShared with
    | .error e => .error e
    | .ok shared =>
      match getField shared "frames" with
      | .arr frames =>
        if frames.isEmpty then .error .invalidFrames
        else
          match getField root "profiles" with
          | .arr profiles =>
            if profiles.isEmpty then .error .missingProfiles
            else
              match buildMetrics frames 0 with
              | .error e => .error e
              | .ok ms0 =>
                match processProfiles frames.length profiles 0 ms0 0 with
                | .error e => .error e
                | .ok (ms, total) => .ok (ms, total, profiles.length)
          | _ => .error .missingProfiles
      | _ => .error .invalidFrames

/-- The composite ordering score, computed (as in the sort comparator)
from the already-rounded percentages. -/
def hotspotScoreOf (h : Hotspot) : ℚ :=
  h.inclusivePct * (6 / 10) + h.exclusivePct * (4 / 10)

/-- Descending-score ordering used by the (stable) JS sort. -/
def scoreGE (a b : Hotspot) : Prop := hotspotScoreOf b ≤ hotspotScoreOf a

instance : DecidableRel scoreGE := fun a b =>
  inferInstanceAs (Decidable (hotspotScoreOf b ≤ hotspotScoreOf a))

def toHotspot (total : ℚ) (m : FrameMetrics) : Hotspot :=
  let inclusivePct := m.totalTime / total * 100
  let exclusivePct := m.selfTime / total * 100
  { name := m.name, file := m.file,
    selfTimeMs := roundTo 3 m.selfTime, totalTimeMs := roundTo 3 m.totalTime,
    sampleCount := m.sampleCount,
    inclusivePct := roundTo 2 inclusivePct,
    exclusivePct := roundTo 2 exclusivePct,
    rank := 0 }

/-- The final `.map` assigning dense one-based ranks in sorted order. -/
def assignRanks : ℕ → List Hotspot → List Hotspot
  | _, [] => []
  | i, h :: rest => { h with rank := i + 1 } :: assignRanks (i + 1) rest

/-- The hotspot pipeline: filter never-observed frames, compute
percentages, stable-sort by descending composite score, assign ranks. -/
def rankHotspots (ms : List FrameMetrics) (total : ℚ) : List Hotspot :=
  assignRanks 0
    (List.insertionSort scoreGE
      ((ms.filter fun m =>
          decide (0 < m.totalTime) || decide (0 < m.selfTime)).map
        (toHotspot total)))

def parseSpeedscopeProfile (payload : JsVal) :
    Except ParseError ParsedProfileSummary :=
  match processDocument payload with
  | .error e => .error e
  | .ok (ms, total, pcount) =>
    if total ≤ 0 then .error .noMeasurableActivity
    else
      .ok { hotspots := rankHotspots ms total,
            totalSamples := jsRound total, profileCount := pcount }

/-! ### Concrete documents from the specification's examples and tests -/

/-- The evented example: frames `[main, work]`, events
`Open(0)@0, Open(1)@2, Close(1)@6, Close(0)@10`. -/
def eventedDoc : JsVal :=
  .obj [("shared", .obj [("frames", .arr [
      .obj [("name", .str "main"), ("file", .str "main.ts")],
      .obj [("name", .str "work"), ("file", .str "work.ts")]])]),
    ("profiles", .arr [
      .obj [("type", .str "evented"), ("events", .arr [
        .obj [("type", .str "O"), ("frame", .num 0), ("at", .num 0)],
        .obj [("type", .str "O"), ("frame", .num 1), ("at", .num 2)],
        .obj [("type", .str "C"), ("frame", .num 1), ("at", .num 6)],
        .obj [("type", .str "C"), ("frame", .num 0), ("at", .num 10)]])]])]

/-- What the code actually produces for `eventedDoc`. -/
def eventedSummary : ParsedProfileSummary :=
  { hotspots := [
      { name := "main", file := "main.ts", selfTimeMs := 4, totalTimeMs := 8,
        sampleCount := 2, inclusivePct := 100, exclusivePct := 50, rank := 1 },
      { name := "work", file := "work.ts", selfTimeMs := 4, totalTimeMs := 4,
        sampleCount := 1, inclusivePct := 50, exclusivePct := 50, rank := 2 }],
    totalSamples := 8, profileCount := 1 }

/-- The sampled example: frames `[root, render, diff]`, samples
`[0,1]×5, [0,1]×3, [0,2]×2, [0,1]×4`. -/
def sampledDoc : JsVal :=
  .obj [("shared", .obj [("frames", .arr [
      .obj [("name", .str "root"), ("file", .str "app.ts")],
      .obj [("name", .str "render"), ("file", .str "render.ts")],
      .obj [("name", .str "diff"), ("file", .str "diff.ts")]])]),
    ("profiles", .arr [
      .obj [("type", .str "sampled"),
        ("samples", .arr [
          .arr [.num 0, .num 1],
          .arr [.num 0, .num 1],
          .arr [.num 0, .num 2],
          .arr [.num 0, .num 1]]),
        ("weights", .arr [.num 5, .num 3, .num 2, .num 4])]])]

/-- What the code actually produces for `sampledDoc`. -/
def sampledSummary : ParsedProfileSummary :=
  { hotspots := [
      { name := "render", file := "render.ts", selfTimeMs := 12,
        totalTimeMs := 12, sampleCount := 3, inclusivePct := 8571 / 100,
        exclusivePct := 8571 / 100, rank := 1 },
      { name := "root", file := "app.ts", selfTimeMs := 0, totalTimeMs := 14,
        sampleCount := 4, inclusivePct := 100, exclusivePct := 0, rank := 2 },
      { name := "diff", file := "diff.ts", selfTimeMs := 2, totalTimeMs := 2,
        sampleCount := 1, inclusivePct := 1429 / 100,
        exclusivePct := 1429 / 100, rank := 3 }],
    totalSamples := 14, profileCount := 1 }

/-- A single recursive sample `[0, 0]` with default weight `1`. -/
def recursiveDoc : JsVal :=
  .obj [("shared", .obj [("frames", .arr [.obj [("name", .str "r")]])]),
    ("profiles", .arr [
      .obj [("type", .str "sampled"),
        ("samples", .arr [.arr [.num 0, .num 0]])]])]

def recursiveSummary : ParsedProfileSummary :=
  { hotspots := [
      { name := "r", file := "unknown", selfTimeMs := 1, totalTimeMs := 2,
        sampleCount := 2, inclusivePct := 200, exclusivePct := 100,
        rank := 1 }],
    totalSamples := 1, profileCount := 1 }

/-- Structurally valid sampled document whose weights are all `≤ 0`. -/
def nonPositiveWeightsDoc : JsVal :=
  .obj [("shared", .obj [("frames", .arr [.obj [("name", .str "f")]])]),
    ("profiles", .arr [
      .obj [("type", .str "sampled"),
        ("samples", .arr [.arr [.num 0], .arr [.num 0]]),
        ("weights", .arr [.num 0, .num (-2)])]])]

/-- Two samples but a one-element weights array. -/
def shortWeightsDoc : JsVal :=
  .obj [("shared", .obj [("frames", .arr [.obj [("name", .str "f")]])]),
    ("profiles", .arr [
      .obj [("type", .str "sampled"),
        ("samples", .arr [.arr [.num 0], .arr [.num 0]]),
        ("weights", .arr [.num 1])]])]

/-- `Close(1)` while frame `0` is on top of the stack. -/
def mismatchedCloseDoc : JsVal :=
  .obj [("shared", .obj [("frames", .arr [
      .obj [("name", .str "a")], .obj [("name", .str "b")]])]),
    ("profiles", .arr [
      .obj [("type", .str "evented"), ("events", .arr [
        .obj [("type", .str "O"), ("frame", .num 0), ("at", .num 0)],
        .obj [("type", .str "C"), ("frame", .num 1), ("at", .num 1)]])]])]

/-- A `Close` arriving while the stack is empty. -/
def emptyStackCloseDoc : JsVal :=
  .obj [("shared", .obj [("frames", .arr [.obj [("name", .str "a")]])]),
    ("profiles", .arr [
      .obj [("type", .str "evented"), ("events", .arr [
        .obj [("type", .str "C"), ("frame", .num 0), ("at", .num 0)],
        .obj [("type", .str "C"), ("frame", .num 0), ("at", .num 1)]])]])]

/-! ### Generic infrastructure -/

instance exceptDecEq {ε α : Type} [DecidableEq ε] [DecidableEq α] :
    DecidableEq (Except ε α) := fun a b =>
  match a, b with
  | .error x, .error y =>
    match decEq x y with
    | isTrue h => isTrue (congrArg Except.error h)
    | isFalse h => isFalse (fun hh => h (Except.error.inj hh))
  | .ok x, .ok y =>
    match decEq x y with
    | isTrue h => isTrue (congrArg Except.ok h)
    | isFalse h => isFalse (fun hh => h (Except.ok.inj hh))
  | .error _, .ok _ => isFalse (fun hh => Except.noConfusion hh)
  | .ok _, .error _ => isFalse (fun hh => Except.noConfusion hh)

instance : IsTotal Hotspot scoreGE :=
  ⟨fun a b => (le_total (hotspotScoreOf b) (hotspotScoreOf a)).imp id id⟩

instance : IsTrans Hotspot scoreGE :=
  ⟨fun _ _ _ hab hbc => le_trans hbc hab⟩

/-- The invariant `selfTime ≤ totalTime` over a whole metrics map. -/
def MetricsLE (ms : List FrameMetrics) : Prop :=
  ∀ m ∈ ms, m.selfTime ≤ m.totalTime

/-- `selfTimeMs ≤ totalTimeMs` over every ranked hotspot of a summary. -/
def SummarySelfLeTotal (s : ParsedProfileSummary) : Prop :=
  ∀ h ∈ s.hotspots, h.selfTimeMs ≤ h.totalTimeMs

theorem metricsLE_iff_get? {ms : List FrameMetrics} :
    MetricsLE ms ↔ ∀ j m, ms.get? j = some m → m.selfTime ≤ m.totalTime := by
  constructor
  · intro h j m hm
    exact h m (List.get?_mem hm)
  · intro h m hm
    obtain ⟨j, hj⟩ := List.mem_iff_get?.mp hm
    exact h j m hj

theorem asRecord_error {v : JsVal} {e e' : ParseError}
    (h : asRecord v e = .error e') : e' = e := by
  cases v <;> simp [asRecord] at h <;> exact h.symm

theorem asNumber_error {v : JsVal} {e e' : ParseError}
    (h : asNumber v e = .error e') : e' = e := by
  cases v <;> simp [asNumber] at h <;> exact h.symm

theorem asNumber_ok_irrel {v : JsVal} {e1 e2 : ParseError} {q : ℚ}
    (h : asNumber v e1 = .ok q) : asNumber v e2 = .ok q := by
  cases v <;> simp [asNumber] at h ⊢ <;> exact h

theorem asIndex_error {v : JsVal} {n : ℕ} {e e' : ParseError}
    (h : asIndex v n e = .error e') : e' = e := by
  cases v <;> simp only [asIndex, asNumber] at h
  case num q => split at h <;> simp_all
  all_goals simp_all

theorem asIndex_ok_irrel {v : JsVal} {n : ℕ} {e1 e2 : ParseError} {k : ℕ}
    (h : asIndex v n e1 = .ok k) : asIndex v n e2 = .ok k := by
  cases v <;> simp only [asIndex, asNumber] at h ⊢
  case num q => split at h <;> simp_all
  all_goals simp_all

theorem getLastD_mem {α : Type} {l : List α} (d : α) (h : l ≠ []) :
    l.getLastD d ∈ l := by
  rw [List.getLastD_eq_getLast?]
  obtain ⟨a, ha⟩ := Option.isSome_iff_exists.mp (List.getLast?_isSome.mpr h)
  rw [ha]
  exact List.mem_of_mem_getLast? (by rw [ha]; rfl)

/-! ### Invariant preservation for the sampled aggregator -/

theorem addStackFrames_length {pIdx sIdx frameCount : ℕ} {w : ℚ}
    {stack : List JsVal} {ms ms1 : List FrameMetrics}
    (h : addStackFrames pIdx sIdx frameCount w stack ms = .ok ms1) :
    ms1.length = ms.length := by
  induction stack generalizing ms with
  | nil =>
      simp only [addStackFrames, Except.ok.injEq] at h
      rw [h]
  | cons v rest ih =>
      simp only [addStackFrames] at h
      split at h
      · exact absurd h (by simp)
      · split at h
        · exact absurd h (by simp)
        · exact (ih h).trans (List.length_set ..)

theorem addStackFrames_selfTime {pIdx sIdx frameCount : ℕ} {w : ℚ}
    {stack : List JsVal} {ms ms1 : List FrameMetrics}
    (h : addStackFrames pIdx sIdx frameCount w stack ms = .ok ms1) (j : ℕ) :
    (ms1.get? j).map FrameMetrics.selfTime
      = (ms.get? j).map FrameMetrics.selfTime := by
  induction stack generalizing ms with
  | nil =>
      simp only [addStackFrames, Except.ok.injEq] at h
      rw [h]
  | cons v rest ih =>
      simp only [addStackFrames] at h
      cases hfi : asIndex v frameCount (ParseError.invalidFrameRef pIdx sIdx) with
      | error e => rw [hfi] at h; exact absurd h (by simp)
      | ok fi =>
          simp only [hfi] at h
          cases hm : ms.get? fi with
          | none => simp only [hm] at h; exact absurd h (by simp)
          | some m =>
              simp only [hm] at h
              rw [ih h]
              by_cases hj : fi = j
              · subst hj
                rw [List.get?_set_eq, hm]
                rfl
              · rw [List.get?_set_ne _ _ hj]

theorem addStackFrames_totalTime {pIdx sIdx frameCount : ℕ} {w : ℚ}
    {stack : List JsVal} {ms ms1 : List FrameMetrics} (hw : 0 ≤ w)
    (h : addStackFrames pIdx sIdx frameCount w stack ms = .ok ms1) :
    ∀ j m m1, ms.get? j = some m → ms1.get? j = some m1 →
      m.totalTime ≤ m1.totalTime := by
  induction stack generalizing ms with
  | nil =>
      simp only [addStackFrames, Except.ok.injEq] at h
      subst h
      intro j m m1 hm hm1
      rw [hm] at hm1
      cases hm1
      exact le_refl _
  | cons v rest ih =>
      simp only [addStackFrames] at h
      cases hfi : asIndex v frameCount (ParseError.invalidFrameRef pIdx sIdx) with
      | error e => rw [hfi] at h; exact absurd h (by simp)
      | ok fi =>
          simp only [hfi] at h
          cases hm0 : ms.get? fi with
          | none => simp only [hm0] at h; exact absurd h (by simp)
          | some m0 =>
              simp only [hm0] at h
              intro j m m1 hm hm1
              by_cases hj : fi = j
              · subst hj
                have hset : (ms.set fi
                    { m0 with totalTime := m0.totalTime + w,
                              sampleCount := m0.sampleCount + 1 }).get? fi
                    = some { m0 with totalTime := m0.totalTime + w,
                                     sampleCount := m0.sampleCount + 1 } := by
                  rw [List.get?_set_eq, hm0]; rfl
                have hrec := ih h fi _ m1 hset hm1
                simp only at hrec
                have hmm : m = m0 := by
                  rw [hm] at hm0; exact Option.some.inj hm0
                rw [hmm]
                linarith
              · have hset : (ms.set fi
                    { m0 with totalTime := m0.totalTime + w,
                              sampleCount := m0.sampleCount + 1 }).get? j
                    = ms.get? j := List.get?_set_ne _ _ hj
                exact ih h j m m1 (hset.trans hm) hm1

theorem addStackFrames_totalTime_mem {pIdx sIdx frameCount : ℕ} {w : ℚ}
    {stack : List JsVal} {ms ms1 : List FrameMetrics} (hw : 0 ≤ w)
    (h : addStackFrames pIdx sIdx frameCount w stack ms = .ok ms1)
    {v : JsVal} {li : ℕ} {e : ParseError} (hv : v ∈ stack)
    (hli : asIndex v frameCount e = .ok li) :
    ∀ m m1, ms.get? li = some m → ms1.get? li = some m1 →
      m.totalTime + w ≤ m1.totalTime := by
  induction stack generalizing ms with
  | nil => cases hv
  | cons v' rest ih =>
      simp only [addStackFrames] at h
      cases hfi : asIndex v' frameCount (ParseError.invalidFrameRef pIdx sIdx) with
      | error e' => rw [hfi] at h; exact absurd h (by simp)
      | ok fi =>
          simp only [hfi] at h
          cases hm0 : ms.get? fi with
          | none => simp only [hm0] at h; exact absurd h (by simp)
          | some m0 =>
              simp only [hm0] at h
              intro m m1 hm hm1
              rcases List.mem_cons.mp hv with hv' | hv'
              · subst hv'
                have heq : fi = li := by
                  have hx : asIndex v frameCount
                      (ParseError.invalidFrameRef pIdx sIdx) = .ok li :=
                    asIndex_ok_irrel hli
                  rw [hfi] at hx
                  exact Except.ok.inj hx
                subst heq
                have hset : (ms.set fi
                    { m0 with totalTime := m0.totalTime + w,
                              sampleCount := m0.sampleCount + 1 }).get? fi
                    = some { m0 with totalTime := m0.totalTime + w,
                                     sampleCount := m0.sampleCount + 1 } := by
                  rw [List.get?_set_eq, hm0]; rfl
                have hrec := addStackFrames_totalTime hw h fi _ m1 hset hm1
                simp only at hrec
                have hmm : m = m0 := by
                  rw [hm] at hm0; exact Option.some.inj hm0
                rw [hmm]
                linarith
              · by_cases hj : fi = li
                · subst hj
                  have hset : (ms.set fi
                      { m0 with totalTime := m0.totalTime + w,
                                sampleCount := m0.sampleCount + 1 }).get? fi
                      = some { m0 with totalTime := m0.totalTime + w,
                                       sampleCount := m0.sampleCount + 1 } := by
                    rw [List.get?_set_eq, hm0]; rfl
                  have hrec := ih h hv' _ m1 hset hm1
                  simp only at hrec
                  have hmm : m = m0 := by
                    rw [hm] at hm0; exact Option.some.inj hm0
                  rw [hmm]
                  linarith
                · have hset : (ms.set fi
                      { m0 with totalTime := m0.totalTime + w,
                                sampleCount := m0.sampleCount + 1 }).get? li
                      = ms.get? li := List.get?_set_ne _ _ hj
                  exact ih h hv' m m1 (hset.trans hm) hm1

theorem get?_some_of_length_eq {α : Type} {l l' : List α}
    (hlen : l'.length = l.length) {j : ℕ} {a : α}
    (h : l'.get? j = some a) : ∃ b, l.get? j = some b := by
  cases hb : l.get? j with
  | some b => exact ⟨b, rfl⟩
  | none =>
      have h1 : l.length ≤ j := List.get?_eq_none.mp hb
      have h2 : l'.get? j = none := List.get?_eq_none.mpr (hlen ▸ h1)
      rw [h] at h2
      cases h2

theorem addStackFrames_preserves {pIdx sIdx frameCount : ℕ} {w : ℚ}
    {stack : List JsVal} {ms msA : List FrameMetrics} (hw : 0 ≤ w)
    (hle : MetricsLE ms)
    (h : addStackFrames pIdx sIdx frameCount w stack ms = .ok msA) :
    MetricsLE msA := by
  rw [metricsLE_iff_get?] at hle ⊢
  intro j mj hj
  obtain ⟨m0, hm0⟩ := get?_some_of_length_eq (addStackFrames_length h) hj
  have hself := addStackFrames_selfTime h j
  rw [hj, hm0] at hself
  have hself' : mj.selfTime = m0.selfTime := by
    simpa using hself
  have htot := addStackFrames_totalTime hw h j m0 mj hm0 hj
  calc mj.selfTime = m0.selfTime := hself'
    _ ≤ m0.totalTime := hle j m0 hm0
    _ ≤ mj.totalTime := htot

theorem processSample_preserves {pIdx sIdx frameCount : ℕ}
    {weights : List JsVal} {v : JsVal} {ms ms1 : List FrameMetrics}
    {observed obs1 : ℚ} (hle : MetricsLE ms)
    (h : processSample pIdx sIdx frameCount weights v ms observed
      = .ok (ms1, obs1)) :
    MetricsLE ms1 := by
  cases v with
  | arr stack =>
      cases stack with
      | nil =>
          simp [processSample] at h
          exact h.1 ▸ hle
      | cons a tl =>
          simp only [processSample, List.isEmpty_cons, Bool.false_eq_true,
            if_false] at h
          cases hw : resolveWeight pIdx sIdx weights with
          | error e => simp only [hw] at h; exact absurd h (by simp)
          | ok w =>
              simp only [hw] at h
              by_cases hw0 : w ≤ 0
              · rw [if_pos hw0] at h
                simp only [Except.ok.injEq, Prod.mk.injEq] at h
                exact h.1 ▸ hle
              · rw [if_neg hw0] at h
                have hwpos : 0 < w := lt_of_not_ge hw0
                cases hA : addStackFrames pIdx sIdx frameCount w (a :: tl) ms with
                | error e => simp only [hA] at h; exact absurd h (by simp)
                | ok msA =>
                    simp only [hA] at h
                    cases hli : asIndex ((a :: tl).getLastD .undef) frameCount
                        (ParseError.invalidLeafFrame pIdx sIdx) with
                    | error e => simp only [hli] at h; exact absurd h (by simp)
                    | ok li =>
                        simp only [hli] at h
                        cases hm : msA.get? li with
                        | none => simp only [hm] at h; exact absurd h (by simp)
                        | some m =>
                            simp only [hm, Except.ok.injEq, Prod.mk.injEq] at h
                            have hms1 : ms1
                                = msA.set li { m with selfTime := m.selfTime + w } :=
                              h.1.symm
                            subst hms1
                            rw [metricsLE_iff_get?]
                            intro j mj hj
                            obtain ⟨m0, hm0⟩ :=
                              get?_some_of_length_eq (addStackFrames_length hA) hm
                            by_cases hjl : li = j
                            · subst hjl
                              rw [List.get?_set_eq, hm] at hj
                              have hmj : mj = { m with selfTime := m.selfTime + w } := by
                                simpa using hj.symm
                              subst hmj
                              have hself := addStackFrames_selfTime hA li
                              rw [hm, hm0] at hself
                              have hself' : m.selfTime = m0.selfTime := by
                                simpa using hself
                              have hmem : (a :: tl).getLastD JsVal.undef ∈ a :: tl :=
                                getLastD_mem _ (by simp)
                              have hbump := addStackFrames_totalTime_mem
                                (le_of_lt hwpos) hA hmem hli m0 m hm0 hm
                              have hbase := metricsLE_iff_get?.mp hle li m0 hm0
                              simp only
                              linarith
                            · rw [List.get?_set_ne _ _ hjl] at hj
                              exact metricsLE_iff_get?.mp
                                (addStackFrames_preserves (le_of_lt hwpos) hle hA) j mj hj
  | undef => simp [processSample] at h; exact h.1 ▸ hle
  | null => simp [processSample] at h; exact h.1 ▸ hle
  | bool b => simp [processSample] at h; exact h.1 ▸ hle
  | num q => simp [processSample] at h; exact h.1 ▸ hle
  | str s => simp [processSample] at h; exact h.1 ▸ hle
  | obj o => simp [processSample] at h; exact h.1 ▸ hle

/-! ### Invariant preservation for the evented reconstructor -/

theorem addDeltaToStack_length {delta : ℚ} {stack : List ℕ}
    {ms ms1 : List FrameMetrics}
    (h : addDeltaToStack delta stack ms = .ok ms1) :
    ms1.length = ms.length := by
  induction stack generalizing ms with
  | nil =>
      simp only [addDeltaToStack, Except.ok.injEq] at h
      rw [h]
  | cons f rest ih =>
      simp only [addDeltaToStack] at h
      cases hm : ms.get? f with
      | none => simp only [hm] at h; exact absurd h (by simp)
      | some m =>
          simp only [hm] at h
          exact (ih h).trans (List.length_set ..)

theorem addDeltaToStack_selfTime {delta : ℚ} {stack : List ℕ}
    {ms ms1 : List FrameMetrics}
    (h : addDeltaToStack delta stack ms = .ok ms1) (j : ℕ) :
    (ms1.get? j).map FrameMetrics.selfTime
      = (ms.get? j).map FrameMetrics.selfTime := by
  induction stack generalizing ms with
  | nil =>
      simp only [addDeltaToStack, Except.ok.injEq] at h
      rw [h]
  | cons f rest ih =>
      simp only [addDeltaToStack] at h
      cases hm : ms.get? f with
      | none => simp only [hm] at h; exact absurd h (by simp)
      | some m =>
          simp only [hm] at h
          rw [ih h]
          by_cases hj : f = j
          · subst hj
            rw [List.get?_set_eq, hm]
            rfl
          · rw [List.get?_set_ne _ _ hj]

theorem addDeltaToStack_totalTime {delta : ℚ} {stack : List ℕ}
    {ms ms1 : List FrameMetrics} (hd : 0 ≤ delta)
    (h : addDeltaToStack delta stack ms = .ok ms1) :
    ∀ j m m1, ms.get? j = some m → ms1.get? j = some m1 →
      m.totalTime ≤ m1.totalTime := by
  induction stack generalizing ms with
  | nil =>
      simp only [addDeltaToStack, Except.ok.injEq] at h
      subst h
      intro j m m1 hm hm1
      rw [hm] at hm1
      cases hm1
      exact le_refl _
  | cons f rest ih =>
      simp only [addDeltaToStack] at h
      cases hm0 : ms.get? f with
      | none => simp only [hm0] at h; exact absurd h (by simp)
      | some m0 =>
          simp only [hm0] at h
          intro j m m1 hm hm1
          by_cases hj : f = j
          · subst hj
            have hset : (ms.set f
                { m0 with totalTime := m0.totalTime + delta,
                          sampleCount := m0.sampleCount + 1 }).get? f
                = some { m0 with totalTime := m0.totalTime + delta,
                                 sampleCount := m0.sampleCount + 1 } := by
              rw [List.get?_set_eq, hm0]; rfl
            have hrec := ih h f _ m1 hset hm1
            simp only at hrec
            have hmm : m = m0 := by
              rw [hm] at hm0; exact Option.some.inj hm0
            rw [hmm]
            linarith
          · have hset : (ms.set f
                { m0 with totalTime := m0.totalTime + delta,
                          sampleCount := m0.sampleCount + 1 }).get? j
                = ms.get? j := List.get?_set_ne _ _ hj
            exact ih h j m m1 (hset.trans hm) hm1

theorem addDeltaToStack_totalTime_mem {delta : ℚ} {stack : List ℕ}
    {ms ms1 : List FrameMetrics} (hd : 0 ≤ delta)
    (h : addDeltaToStack delta stack ms = .ok ms1)
    {f : ℕ} (hf : f ∈ stack) :
    ∀ m m1, ms.get? f = some m → ms1.get? f = some m1 →
      m.totalTime + delta ≤ m1.totalTime := by
  induction stack generalizing ms with
  | nil => cases hf
  | cons f' rest ih =>
      simp only [addDeltaToStack] at h
      cases hm0 : ms.get? f' with
      | none => simp only [hm0] at h; exact absurd h (by simp)
      | some m0 =>
          simp only [hm0] at h
          intro m m1 hm hm1
          rcases List.mem_cons.mp hf with hf' | hf'
          · subst hf'
            have hmm : m = m0 := by
              rw [hm] at hm0; exact Option.some.inj hm0
            subst hmm
            have hset : (ms.set f
                { m with totalTime := m.totalTime + delta,
                         sampleCount := m.sampleCount + 1 }).get? f
                = some { m with totalTime := m.totalTime + delta,
                                sampleCount := m.sampleCount + 1 } := by
              rw [List.get?_set_eq, hm]; rfl
            have hrec := addDeltaToStack_totalTime hd h f _ m1 hset hm1
            simpa using hrec
          · by_cases hj : f' = f
            · subst hj
              have hmm : m = m0 := by
                rw [hm] at hm0; exact Option.some.inj hm0
              subst hmm
              have hset : (ms.set f'
                  { m with totalTime := m.totalTime + delta,
                           sampleCount := m.sampleCount + 1 }).get? f'
                  = some { m with totalTime := m.totalTime + delta,
                                  sampleCount := m.sampleCount + 1 } := by
                rw [List.get?_set_eq, hm]; rfl
              have hrec := ih h hf' _ m1 hset hm1
              simp only at hrec
              linarith
            · have hset : (ms.set f'
                  { m0 with totalTime := m0.totalTime + delta,
                            sampleCount := m0.sampleCount + 1 }).get? f
                  = ms.get? f := List.get?_set_ne _ _ hj
              exact ih h hf' m m1 (hset.trans hm) hm1

theorem addDeltaToStack_preserves {delta : ℚ} {stack : List ℕ}
    {ms msA : List FrameMetrics} (hd : 0 ≤ delta) (hle : MetricsLE ms)
    (h : addDeltaToStack delta stack ms = .ok msA) :
    MetricsLE msA := by
  rw [metricsLE_iff_get?] at hle ⊢
  intro j mj hj
  obtain ⟨m0, hm0⟩ := get?_some_of_length_eq (addDeltaToStack_length h) hj
  have hself := addDeltaToStack_selfTime h j
  rw [hj, hm0] at hself
  have hself' : mj.selfTime = m0.selfTime := by simpa using hself
  have htot := addDeltaToStack_totalTime hd h j m0 mj hm0 hj
  calc mj.selfTime = m0.selfTime := hself'
    _ ≤ m0.totalTime := hle j m0 hm0
    _ ≤ mj.totalTime := htot

theorem eventDelta_preserves {pIdx i : ℕ} {atQ : ℚ} {rest : List JsVal}
    {stack : List ℕ} {ms ms1 : List FrameMetrics} {observed obs1 : ℚ}
    (hle : MetricsLE ms)
    (h : eventDelta pIdx i atQ rest stack ms observed = .ok (ms1, obs1)) :
    MetricsLE ms1 := by
  cases rest with
  | nil =>
      simp only [eventDelta, Except.ok.injEq, Prod.mk.injEq] at h
      exact h.1 ▸ hle
  | cons nxt more =>
      simp only [eventDelta] at h
      cases hr : asRecord nxt (ParseError.invalidEventEntry pIdx (i + 1)) with
      | error e => simp only [hr] at h; exact absurd h (by simp)
      | ok nf =>
          simp only [hr] at h
          cases hn : asNumber (getField nf "at")
              (ParseError.invalidEventTimestamp pIdx (i + 1)) with
          | error e => simp only [hn] at h; exact absurd h (by simp)
          | ok nextAt =>
              simp only [hn] at h
              by_cases hneg : nextAt - atQ < 0
              · rw [if_pos hneg] at h; exact absurd h (by simp)
              · rw [if_neg hneg] at h
                cases htop : stack.getLast? with
                | none =>
                    simp only [htop, Except.ok.injEq, Prod.mk.injEq] at h
                    exact h.1 ▸ hle
                | some top =>
                    simp only [htop] at h
                    by_cases hpos : 0 < nextAt - atQ
                    · rw [if_pos hpos] at h
                      cases hA : addDeltaToStack (nextAt - atQ) stack ms with
                      | error e => simp only [hA] at h; exact absurd h (by simp)
                      | ok msA =>
                          simp only [hA] at h
                          cases hm : msA.get? top with
                          | none => simp only [hm] at h; exact absurd h (by simp)
                          | some m =>
                              simp only [hm, Except.ok.injEq, Prod.mk.injEq] at h
                              have hms1 : ms1 = msA.set top
                                  { m with selfTime := m.selfTime + (nextAt - atQ) } :=
                                h.1.symm
                              subst hms1
                              rw [metricsLE_iff_get?]
                              intro j mj hj
                              obtain ⟨m0, hm0⟩ := get?_some_of_length_eq
                                (addDeltaToStack_length hA) hm
                              by_cases hjl : top = j
                              · subst hjl
                                rw [List.get?_set_eq, hm] at hj
                                have hmj : mj = { m with
                                    selfTime := m.selfTime + (nextAt - atQ) } := by
                                  simpa using hj.symm
                                subst hmj
                                have hself := addDeltaToStack_selfTime hA top
                                rw [hm, hm0] at hself
                                have hself' : m.selfTime = m0.selfTime := by
                                  simpa using hself
                                have hmem : top ∈ stack :=
                                  List.mem_of_mem_getLast? (by rw [htop]; rfl)
                                have hbump := addDeltaToStack_totalTime_mem
                                  (le_of_lt hpos) hA hmem m0 m hm0 hm
                                have hbase := metricsLE_iff_get?.mp hle top m0 hm0
                                simp only
                                linarith
                              · rw [List.get?_set_ne _ _ hjl] at hj
                                exact metricsLE_iff_get?.mp
                                  (addDeltaToStack_preserves (le_of_lt hpos) hle hA)
                                  j mj hj
                    · rw [if_neg hpos] at h
                      simp only [Except.ok.injEq, Prod.mk.injEq] at h
                      exact h.1 ▸ hle

/-! ### Invariant chained through the whole parse -/

theorem processSamples_preserves {pIdx frameCount : ℕ} {weights : List JsVal} :
    ∀ {samples : List JsVal} {sIdx : ℕ} {ms ms1 : List FrameMetrics}
      {observed obs1 : ℚ},
      MetricsLE ms →
      processSamples pIdx frameCount weights samples sIdx ms observed
        = .ok (ms1, obs1) →
      MetricsLE ms1 := by
  intro samples
  induction samples with
  | nil =>
      intro sIdx ms ms1 observed obs1 hle h
      simp only [processSamples, Except.ok.injEq, Prod.mk.injEq] at h
      exact h.1 ▸ hle
  | cons s rest ih =>
      intro sIdx ms ms1 observed obs1 hle h
      simp only [processSamples] at h
      cases hs : processSample pIdx sIdx frameCount weights s ms observed with
      | error e => simp only [hs] at h; exact absurd h (by simp)
      | ok p =>
          obtain ⟨msA, obsA⟩ := p
          simp only [hs] at h
          exact ih (processSample_preserves hle hs) h

theorem parseSampledProfile_preserves {profile : List (String × JsVal)}
    {frameCount : ℕ} {ms ms1 : List FrameMetrics} {pIdx : ℕ} {obs1 : ℚ}
    (hle : MetricsLE ms)
    (h : parseSampledProfile profile frameCount ms pIdx = .ok (ms1, obs1)) :
    MetricsLE ms1 := by
  unfold parseSampledProfile at h
  cases hg : getField profile "samples" <;> simp only [hg] at h
  case arr samples => exact processSamples_preserves hle h
  all_goals exact absurd h (by simp)

theorem runEvented_preserves {pIdx frameCount : ℕ} :
    ∀ {events : List JsVal} {i : ℕ} {stack : List ℕ}
      {ms ms1 : List FrameMetrics} {observed obs1 : ℚ},
      MetricsLE ms →
      runEvented pIdx frameCount events i stack ms observed = .ok (ms1, obs1) →
      MetricsLE ms1 := by
  intro events
  induction events with
  | nil =>
      intro i stack ms ms1 observed obs1 hle h
      simp only [runEvented] at h
      split at h
      · simp only [Except.ok.injEq, Prod.mk.injEq] at h
        exact h.1 ▸ hle
      · exact absurd h (by simp)
  | cons e rest ih =>
      intro i stack ms ms1 observed obs1 hle h
      simp only [runEvented] at h
      cases hr : asRecord e (ParseError.invalidEventEntry pIdx i) with
      | error err => simp only [hr] at h; exact absurd h (by simp)
      | ok ev =>
          simp only [hr] at h
          cases hf : asIndex (getField ev "frame") frameCount
              (ParseError.invalidEventFrame pIdx i) with
          | error err => simp only [hf] at h; exact absurd h (by simp)
          | ok frame =>
              simp only [hf] at h
              cases ha : asNumber (getField ev "at")
                  (ParseError.invalidEventTimestamp pIdx i) with
              | error err => simp only [ha] at h; exact absurd h (by simp)
              | ok atQ =>
                  simp only [ha] at h
                  cases hd : eventDelta pIdx i atQ rest stack ms observed with
                  | error err => simp only [hd] at h; exact absurd h (by simp)
                  | ok p =>
                      obtain ⟨msD, obsD⟩ := p
                      simp only [hd] at h
                      have hleD := eventDelta_preserves hle hd
                      by_cases hO :
                          jsToString (nullish (getField ev "type") (.str "")) = "O"
                      · rw [if_pos hO] at h
                        exact ih hleD h
                      · rw [if_neg hO] at h
                        by_cases hC :
                            jsToString (nullish (getField ev "type") (.str "")) = "C"
                        · rw [if_pos hC] at h
                          cases hlast : stack.getLast? with
                          | none =>
                              simp only [hlast] at h
                              exact absurd h (by simp)
                          | some closing =>
                              simp only [hlast] at h
                              by_cases hcf : closing = frame
                              · rw [if_pos hcf] at h
                                exact ih hleD h
                              · rw [if_neg hcf] at h
                                exact absurd h (by simp)
                        · rw [if_neg hC] at h
                          exact absurd h (by simp)

theorem parseEventedProfile_preserves {profile : List (String × JsVal)}
    {frameCount : ℕ} {ms ms1 : List FrameMetrics} {pIdx : ℕ} {obs1 : ℚ}
    (hle : MetricsLE ms)
    (h : parseEventedProfile profile frameCount ms pIdx = .ok (ms1, obs1)) :
    MetricsLE ms1 := by
  unfold parseEventedProfile at h
  cases hg : getField profile "events" <;> simp only [hg] at h
  case arr events =>
    split at h
    · exact absurd h (by simp)
    · exact runEvented_preserves hle h
  all_goals exact absurd h (by simp)

theorem processProfiles_preserves {frameCount : ℕ} :
    ∀ {profiles : List JsVal} {pIdx : ℕ} {ms ms1 : List FrameMetrics}
      {total total1 : ℚ},
      MetricsLE ms →
      processProfiles frameCount profiles pIdx ms total = .ok (ms1, total1) →
      MetricsLE ms1 := by
  intro profiles
  induction profiles with
  | nil =>
      intro pIdx ms ms1 total total1 hle h
      simp only [processProfiles, Except.ok.injEq, Prod.mk.injEq] at h
      exact h.1 ▸ hle
  | cons p rest ih =>
      intro pIdx ms ms1 total total1 hle h
      simp only [processProfiles] at h
      cases hr : asRecord p (ParseError.invalidProfile pIdx) with
      | error err => simp only [hr] at h; exact absurd h (by simp)
      | ok profile =>
          simp only [hr] at h
          by_cases hs :
              jsToString (nullish (getField profile "type") (.str "")) = "sampled"
          · rw [if_pos hs] at h
            cases hp : parseSampledProfile profile frameCount ms pIdx with
            | error err => simp only [hp] at h; exact absurd h (by simp)
            | ok q =>
                obtain ⟨msA, obsA⟩ := q
                simp only [hp] at h
                exact ih (parseSampledProfile_preserves hle hp) h
          · rw [if_neg hs] at h
            by_cases he :
                jsToString (nullish (getField profile "type") (.str "")) = "evented"
            · rw [if_pos he] at h
              cases hp : parseEventedProfile profile frameCount ms pIdx with
              | error err => simp only [hp] at h; exact absurd h (by simp)
              | ok q =>
                  obtain ⟨msA, obsA⟩ := q
                  simp only [hp] at h
                  exact ih (parseEventedProfile_preserves hle hp) h
            · rw [if_neg he] at h
              exact absurd h (by simp)

theorem buildMetrics_metricsLE {frames : List JsVal} {idx : ℕ}
    {ms : List FrameMetrics} (h : buildMetrics frames idx = .ok ms) :
    MetricsLE ms := by
  induction frames generalizing idx ms with
  | nil =>
      simp only [buildMetrics, Except.ok.injEq] at h
      intro m hm
      rw [← h] at hm
      cases hm
  | cons f rest ih =>
      simp only [buildMetrics] at h
      cases hr : asRecord f (ParseError.invalidFrameEntry idx) with
      | error err => simp only [hr] at h; exact absurd h (by simp)
      | ok fr =>
          simp only [hr] at h
          cases hb : buildMetrics rest (idx + 1) with
          | error err => simp only [hb] at h; exact absurd h (by simp)
          | ok msR =>
              simp only [hb, Except.ok.injEq] at h
              intro m hm
              rw [← h] at hm
              rcases List.mem_cons.mp hm with hm' | hm'
              · rw [hm']
              · exact ih hb m hm'

theorem processDocument_metricsLE {payload : JsVal}
    {ms : List FrameMetrics} {total : ℚ} {pcount : ℕ}
    (h : processDocument payload = .ok (ms, total, pcount)) :
    MetricsLE ms := by
  unfold processDocument at h
  cases hr : asRecord payload ParseError.notAnObject with
  | error err => simp only [hr] at h; exact absurd h (by simp)
  | ok root =>
      simp only [hr] at h
      cases hs : asRecord (getField root "shared") ParseError.missingShared with
      | error err => simp only [hs] at h; exact absurd h (by simp)
      | ok shared =>
          simp only [hs] at h
          cases hfr : getField shared "frames" <;> simp only [hfr] at h
          case arr frames =>
            split at h
            · exact absurd h (by simp)
            · cases hpr : getField root "profiles" <;> simp only [hpr] at h
              case arr profiles =>
                split at h
                · exact absurd h (by simp)
                · cases hb : buildMetrics frames 0 with
                  | error err => simp only [hb] at h; exact absurd h (by simp)
                  | ok ms0 =>
                      simp only [hb] at h
                      cases hp : processProfiles frames.length profiles 0 ms0 0 with
                      | error err => simp only [hp] at h; exact absurd h (by simp)
                      | ok q =>
                          obtain ⟨msA, totalA⟩ := q
                          simp only [hp, Except.ok.injEq, Prod.mk.injEq] at h
                          have : msA = ms := h.1
                          subst this
                          exact processProfiles_preserves
                            (buildMetrics_metricsLE hb) hp
              all_goals exact absurd h (by simp)
          all_goals exact absurd h (by simp)

/-! ### Ranking pipeline facts -/

theorem roundTo_mono {d : ℕ} {a b : ℚ} (h : a ≤ b) :
    roundTo d a ≤ roundTo d b := by
  unfold roundTo
  have hp : (0 : ℚ) < (10 : ℚ) ^ d := by positivity
  have hfl : ⌊a * (10 : ℚ) ^ d + 1 / 2⌋ ≤ ⌊b * (10 : ℚ) ^ d + 1 / 2⌋ := by
    apply Int.floor_le_floor
    have := mul_le_mul_of_nonneg_right h (le_of_lt hp)
    linarith
  gcongr

theorem assignRanks_length : ∀ (n : ℕ) (l : List Hotspot),
    (assignRanks n l).length = l.length
  | _, [] => rfl
  | n, h :: t => by simp [assignRanks, assignRanks_length (n + 1) t]

theorem assignRanks_map_score : ∀ (n : ℕ) (l : List Hotspot),
    (assignRanks n l).map hotspotScoreOf = l.map hotspotScoreOf
  | _, [] => rfl
  | n, h :: t => by
      simp only [assignRanks, List.map_cons, assignRanks_map_score (n + 1) t]
      rfl

theorem assignRanks_map_rank : ∀ (n : ℕ) (l : List Hotspot),
    (assignRanks n l).map Hotspot.rank = List.range' (n + 1) l.length
  | _, [] => rfl
  | n, h :: t => by
      simp only [assignRanks, List.map_cons, assignRanks_map_rank (n + 1) t,
        List.length_cons, List.range'_succ]

theorem assignRanks_mem : ∀ {n : ℕ} {l : List Hotspot} {h : Hotspot},
    h ∈ assignRanks n l →
    ∃ h0 ∈ l, h.selfTimeMs = h0.selfTimeMs ∧ h.totalTimeMs = h0.totalTimeMs := by
  intro n l
  induction l generalizing n with
  | nil => intro h hm; cases hm
  | cons a t ih =>
      intro h hm
      rcases List.mem_cons.mp hm with hm' | hm'
      · exact ⟨a, List.mem_cons_self a t, by rw [hm'], by rw [hm']⟩
      · obtain ⟨h0, hh0, he⟩ := ih hm'
        exact ⟨h0, List.mem_cons_of_mem a hh0, he⟩

theorem sorted_assignRanks {n : ℕ} {l : List Hotspot}
    (h : List.Sorted scoreGE l) :
    List.Sorted scoreGE (assignRanks n l) := by
  have h1 : List.Pairwise (fun x y : ℚ => y ≤ x) (l.map hotspotScoreOf) :=
    List.pairwise_map.mpr h
  rw [← assignRanks_map_score n l] at h1
  exact (@List.pairwise_map Hotspot ℚ hotspotScoreOf
    (fun x y => y ≤ x) (assignRanks n l)).mp h1

theorem rankHotspots_sorted (ms : List FrameMetrics) (total : ℚ) :
    List.Sorted scoreGE (rankHotspots ms total) :=
  sorted_assignRanks (List.sorted_insertionSort scoreGE _)

theorem rankHotspots_ranks (ms : List FrameMetrics) (total : ℚ) :
    (rankHotspots ms total).map Hotspot.rank
      = List.range' 1 (rankHotspots ms total).length := by
  unfold rankHotspots
  rw [assignRanks_map_rank, assignRanks_length]

theorem rankHotspots_selfLe {ms : List FrameMetrics} {total : ℚ}
    (hle : MetricsLE ms) :
    ∀ h ∈ rankHotspots ms total, h.selfTimeMs ≤ h.totalTimeMs := by
  intro h hm
  unfold rankHotspots at hm
  obtain ⟨h0, hh0, hself, htotal⟩ := assignRanks_mem hm
  rw [List.mem_insertionSort] at hh0
  obtain ⟨m, hmf, hm0⟩ := List.mem_map.mp hh0
  have hmm : m ∈ ms := (List.mem_filter.mp hmf).1
  have hst : m.selfTime ≤ m.totalTime := hle m hmm
  rw [hself, htotal, ← hm0]
  exact roundTo_mono hst

/-! ### `noMeasurableActivity` is produced only by the final check -/

theorem addStackFrames_ne_noMeasurable {pIdx sIdx frameCount : ℕ} {w : ℚ} :
    ∀ {stack : List JsVal} {ms : List FrameMetrics},
      addStackFrames pIdx sIdx frameCount w stack ms
        ≠ .error .noMeasurableActivity := by
  intro stack
  induction stack with
  | nil => intro ms h; simp [addStackFrames] at h
  | cons v rest ih =>
      intro ms h
      simp only [addStackFrames] at h
      cases hfi : asIndex v frameCount (ParseError.invalidFrameRef pIdx sIdx) with
      | error e =>
          simp only [hfi, Except.error.injEq] at h
          subst h
          exact absurd (asIndex_error hfi) (by simp)
      | ok fi =>
          simp only [hfi] at h
          cases hm : ms.get? fi with
          | none => simp only [hm] at h; simp at h
          | some m => simp only [hm] at h; exact ih h

theorem resolveWeight_ne_noMeasurable {pIdx sIdx : ℕ} {weights : List JsVal} :
    resolveWeight pIdx sIdx weights ≠ .error .noMeasurableActivity := by
  intro h
  unfold resolveWeight at h
  split at h
  · exact absurd (asNumber_error h) (by simp)
  · simp at h

theorem processSample_ne_noMeasurable {pIdx sIdx frameCount : ℕ}
    {weights : List JsVal} {v : JsVal} {ms : List FrameMetrics} {observed : ℚ} :
    processSample pIdx sIdx frameCount weights v ms observed
      ≠ .error .noMeasurableActivity := by
  intro h
  cases v <;> simp only [processSample] at h
  case undef => simp at h
  case null => simp at h
  case bool b => simp at h
  case num q => simp at h
  case str s => simp at h
  case obj o => simp at h
  case arr stack =>
    split at h
    · simp at h
    · cases hw : resolveWeight pIdx sIdx weights with
      | error e =>
          simp only [hw, Except.error.injEq] at h
          subst h
          exact resolveWeight_ne_noMeasurable hw
      | ok w =>
          simp only [hw] at h
          split at h
          · simp at h
          · cases hA : addStackFrames pIdx sIdx frameCount w stack ms with
            | error e =>
                simp only [hA, Except.error.injEq] at h
                subst h
                exact addStackFrames_ne_noMeasurable hA
            | ok msA =>
                simp only [hA] at h
                cases hli : asIndex (stack.getLastD .undef) frameCount
                    (ParseError.invalidLeafFrame pIdx sIdx) with
                | error e =>
                    simp only [hli, Except.error.injEq] at h
                    subst h
                    exact absurd (asIndex_error hli) (by simp)
                | ok li =>
                    simp only [hli] at h
                    cases hm : msA.get? li with
                    | none => simp only [hm] at h; simp at h
                    | some m => simp only [hm] at h; simp at h

theorem processSamples_ne_noMeasurable {pIdx frameCount : ℕ}
    {weights : List JsVal} :
    ∀ {samples : List JsVal} {sIdx : ℕ} {ms : List FrameMetrics} {observed : ℚ},
      processSamples pIdx frameCount weights samples sIdx ms observed
        ≠ .error .noMeasurableActivity := by
  intro samples
  induction samples with
  | nil => intro sIdx ms observed h; simp [processSamples] at h
  | cons s rest ih =>
      intro sIdx ms observed h
      simp only [processSamples] at h
      cases hs : processSample pIdx sIdx frameCount weights s ms observed with
      | error e =>
          simp only [hs, Except.error.injEq] at h
          subst h
          exact processSample_ne_noMeasurable hs
      | ok p =>
          obtain ⟨msA, obsA⟩ := p
          simp only [hs] at h
          exact ih h

theorem parseSampledProfile_ne_noMeasurable {profile : List (String × JsVal)}
    {frameCount : ℕ} {ms : List FrameMetrics} {pIdx : ℕ} :
    parseSampledProfile profile frameCount ms pIdx
      ≠ .error .noMeasurableActivity := by
  intro h
  unfold parseSampledProfile at h
  cases hg : getField profile "samples" <;> simp only [hg] at h
  case arr samples => exact processSamples_ne_noMeasurable h
  all_goals simp at h

theorem addDeltaToStack_ne_noMeasurable {delta : ℚ} :
    ∀ {stack : List ℕ} {ms : List FrameMetrics},
      addDeltaToStack delta stack ms ≠ .error .noMeasurableActivity := by
  intro stack
  induction stack with
  | nil => intro ms h; simp [addDeltaToStack] at h
  | cons f rest ih =>
      intro ms h
      simp only [addDeltaToStack] at h
      cases hm : ms.get? f with
      | none => simp only [hm] at h; simp at h
      | some m => simp only [hm] at h; exact ih h

theorem eventDelta_ne_noMeasurable {pIdx i : ℕ} {atQ : ℚ} {rest : List JsVal}
    {stack : List ℕ} {ms : List FrameMetrics} {observed : ℚ} :
    eventDelta pIdx i atQ rest stack ms observed
      ≠ .error .noMeasurableActivity := by
  intro h
  cases rest with
  | nil => simp [eventDelta] at h
  | cons nxt more =>
      simp only [eventDelta] at h
      cases hr : asRecord nxt (ParseError.invalidEventEntry pIdx (i + 1)) with
      | error e =>
          simp only [hr, Except.error.injEq] at h
          subst h
          exact absurd (asRecord_error hr) (by simp)
      | ok nf =>
          simp only [hr] at h
          cases hn : asNumber (getField nf "at")
              (ParseError.invalidEventTimestamp pIdx (i + 1)) with
          | error e =>
              simp only [hn, Except.error.injEq] at h
              subst h
              exact absurd (asNumber_error hn) (by simp)
          | ok nextAt =>
              simp only [hn] at h
              split at h
              · simp at h
              · cases htop : stack.getLast? with
                | none => simp only [htop] at h; simp at h
                | some top =>
                    simp only [htop] at h
                    split at h
                    · cases hA : addDeltaToStack (nextAt - atQ) stack ms with
                      | error e =>
                          simp only [hA, Except.error.injEq] at h
                          subst h
                          exact addDeltaToStack_ne_noMeasurable hA
                      | ok msA =>
                          simp only [hA] at h
                          cases hm : msA.get? top with
                          | none => simp only [hm] at h; simp at h
                          | some m => simp only [hm] at h; simp at h
                    · simp at h

theorem runEvented_ne_noMeasurable {pIdx frameCount : ℕ} :
    ∀ {events : List JsVal} {i : ℕ} {stack : List ℕ}
      {ms : List FrameMetrics} {observed : ℚ},
      runEvented pIdx frameCount events i stack ms observed
        ≠ .error .noMeasurableActivity := by
  intro events
  induction events with
  | nil =>
      intro i stack ms observed h
      simp only [runEvented] at h
      split at h <;> simp at h
  | cons e rest ih =>
      intro i stack ms observed h
      simp only [runEvented] at h
      cases hr : asRecord e (ParseError.invalidEventEntry pIdx i) with
      | error err =>
          simp only [hr, Except.error.injEq] at h
          subst h
          exact absurd (asRecord_error hr) (by simp)
      | ok ev =>
          simp only [hr] at h
          cases hf : asIndex (getField ev "frame") frameCount
              (ParseError.invalidEventFrame pIdx i) with
          | error err =>
              simp only [hf, Except.error.injEq] at h
              subst h
              exact absurd (asIndex_error hf) (by simp)
          | ok frame =>
              simp only [hf] at h
              cases ha : asNumber (getField ev "at")
                  (ParseError.invalidEventTimestamp pIdx i) with
              | error err =>
                  simp only [ha, Except.error.injEq] at h
                  subst h
                  exact absurd (asNumber_error ha) (by simp)
              | ok atQ =>
                  simp only [ha] at h
                  cases hd : eventDelta pIdx i atQ rest stack ms observed with
                  | error err =>
                      simp only [hd, Except.error.injEq] at h
                      subst h
                      exact eventDelta_ne_noMeasurable hd
                  | ok p =>
                      obtain ⟨msD, obsD⟩ := p
                      simp only [hd] at h
                      split at h
                      · exact ih h
                      · split at h
                        · cases hlast : stack.getLast? with
                          | none => simp only [hlast] at h; simp at h
                          | some closing =>
                              simp only [hlast] at h
                              split at h
                              · exact ih h
                              · simp at h
                        · simp at h

theorem parseEventedProfile_ne_noMeasurable {profile : List (String × JsVal)}
    {frameCount : ℕ} {ms : List FrameMetrics} {pIdx : ℕ} :
    parseEventedProfile profile frameCount ms pIdx
      ≠ .error .noMeasurableActivity := by
  intro h
  unfold parseEventedProfile at h
  cases hg : getField profile "events" <;> simp only [hg] at h
  case arr events =>
    split at h
    · simp at h
    · exact runEvented_ne_noMeasurable h
  all_goals simp at h

theorem processProfiles_ne_noMeasurable {frameCount : ℕ} :
    ∀ {profiles : List JsVal} {pIdx : ℕ} {ms : List FrameMetrics} {total : ℚ},
      processProfiles frameCount profiles pIdx ms total
        ≠ .error .noMeasurableActivity := by
  intro profiles
  induction profiles with
  | nil => intro pIdx ms total h; simp [processProfiles] at h
  | cons p rest ih =>
      intro pIdx ms total h
      simp only [processProfiles] at h
      cases hr : asRecord p (ParseError.invalidProfile pIdx) with
      | error err =>
          simp only [hr, Except.error.injEq] at h
          subst h
          exact absurd (asRecord_error hr) (by simp)
      | ok profile =>
          simp only [hr] at h
          split at h
          · cases hp : parseSampledProfile profile frameCount ms pIdx with
            | error err =>
                simp only [hp, Except.error.injEq] at h
                subst h
                exact parseSampledProfile_ne_noMeasurable hp
            | ok q =>
                obtain ⟨msA, obsA⟩ := q
                simp only [hp] at h
                exact ih h
          · split at h
            · cases hp : parseEventedProfile profile frameCount ms pIdx with
              | error err =>
                  simp only [hp, Except.error.injEq] at h
                  subst h
                  exact parseEventedProfile_ne_noMeasurable hp
              | ok q =>
                  obtain ⟨msA, obsA⟩ := q
                  simp only [hp] at h
                  exact ih h
            · simp at h

theorem buildMetrics_ne_noMeasurable :
    ∀ {frames : List JsVal} {idx : ℕ},
      buildMetrics frames idx ≠ .error .noMeasurableActivity := by
  intro frames
  induction frames with
  | nil => intro idx h; simp [buildMetrics] at h
  | cons f rest ih =>
      intro idx h
      simp only [buildMetrics] at h
      cases hr : asRecord f (ParseError.invalidFrameEntry idx) with
      | error err =>
          simp only [hr, Except.error.injEq] at h
          subst h
          exact absurd (asRecord_error hr) (by simp)
      | ok fr =>
          simp only [hr] at h
          cases hb : buildMetrics rest (idx + 1) with
          | error err =>
              simp only [hb, Except.error.injEq] at h
              subst h
              exact ih hb
          | ok msR => simp only [hb] at h; simp at h

theorem processDocument_ne_noMeasurable {payload : JsVal} :
    processDocument payload ≠ .error .noMeasurableActivity := by
  intro h
  unfold processDocument at h
  cases hr : asRecord payload ParseError.notAnObject with
  | error err =>
      simp only [hr, Except.error.injEq] at h
      subst h
      exact absurd (asRecord_error hr) (by simp)
  | ok root =>
      simp only [hr] at h
      cases hs : asRecord (getField root "shared") ParseError.missingShared with
      | error err =>
          simp only [hs, Except.error.injEq] at h
          subst h
          exact absurd (asRecord_error hs) (by simp)
      | ok shared =>
          simp only [hs] at h
          cases hfr : getField shared "frames" <;> simp only [hfr] at h
          case arr frames =>
            split at h
            · simp at h
            · cases hpr : getField root "profiles" <;> simp only [hpr] at h
              case arr profiles =>
                split at h
                · simp at h
                · cases hb : buildMetrics frames 0 with
                  | error err =>
                      simp only [hb, Except.error.injEq] at h
                      subst h
                      exact buildMetrics_ne_noMeasurable hb
                  | ok ms0 =>
                      simp only [hb] at h
                      cases hp : processProfiles frames.length profiles 0 ms0 0 with
                      | error err =>
                          simp only [hp, Except.error.injEq] at h
                          subst h
                          exact processProfiles_ne_noMeasurable hp
                      | ok q =>
                          obtain ⟨msA, totalA⟩ := q
                          simp only [hp] at h
                          simp at h
              all_goals simp at h
          all_goals simp at h

/-- Decomposition of a successful parse into its pipeline pieces. -/
theorem parse_ok_structure {payload : JsVal} {s : ParsedProfileSummary}
    (h : parseSpeedscopeProfile payload = .ok s) :
    ∃ ms total pcount, processDocument payload = .ok (ms, total, pcount) ∧
      ¬total ≤ 0 ∧
      s = { hotspots := rankHotspots ms total,
            totalSamples := jsRound total, profileCount := pcount } := by
  unfold parseSpeedscopeProfile at h
  cases hd : processDocument payload with
  | error err => simp only [hd] at h; exact absurd h (by simp)
  | ok q =>
      obtain ⟨ms, total, pcount⟩ := q
      simp only [hd] at h
      by_cases hz : total ≤ 0
      · rw [if_pos hz] at h
        exact absurd h (by simp)
      · rw [if_neg hz] at h
        exact ⟨ms, total, pcount, rfl, hz, (Except.ok.inj h).symm⟩

/-! ### Claim theorems -/

section ClaimProofs

attribute [local semireducible] Rat.add Rat.sub Rat.mul Rat.inv

/-- Claim C1: the specification (and the repository's own test) assert that the
evented example yields `totalSamples = 10`, `main.totalTimeMs = 10`,
`main.selfTimeMs = 6`, `work.totalTimeMs = 4`, `work.exclusivePct = 40`.  The
code instead attributes each inter-event gap to the stack as it stood before
the gap's opening event is applied, producing `totalSamples = 8`,
`main.totalTimeMs = 8`, `main.selfTimeMs = 4`, `work.exclusivePct = 50`
(`eventedSummary`), contradicting the claimed values. -/
theorem evented_example_actual_output :
    parseSpeedscopeProfile eventedDoc = .ok eventedSummary
    ∧ eventedSummary.totalSamples ≠ 10 := by
  exact ⟨by decide, by decide⟩

/-- Claim C3: the specification (and the repository's own test) assert that for
the sampled example the rank-1 hotspot is `root` with `inclusivePct = 100`.
The code sorts by composite score `0.6·inclusive + 0.4·exclusive`, under which
`render` (score 85.71) outranks `root` (score 60), so the rank-1 hotspot is
`render` (`sampledSummary`); `totalSamples = 14` and `render.exclusivePct
= 85.71` do hold. -/
theorem sampled_example_actual_output :
    parseSpeedscopeProfile sampledDoc = .ok sampledSummary
    ∧ (sampledSummary.hotspots.map Hotspot.name).head? = some "render" := by
  exact ⟨by decide, by decide⟩

/-- Claim C2: a `Close` event whose frame does not equal the popped top of
stack, or a `Close` on an empty stack, always aborts the evented replay with
the `UnbalancedStack` error (never continuing), and two such whole documents
make the whole parse fail that way. -/
theorem close_event_unbalanced :
    (∀ (pIdx frameCount i : ℕ) (ev : List (String × JsVal)) (rest : List JsVal)
       (stack : List ℕ) (ms ms1 : List FrameMetrics) (observed obs1 : ℚ)
       (frame : ℕ) (atQ : ℚ),
       jsToString (nullish (getField ev "type") (.str "")) = "C" →
       asIndex (getField ev "frame") frameCount
         (.invalidEventFrame pIdx i) = .ok frame →
       asNumber (getField ev "at") (.invalidEventTimestamp pIdx i) = .ok atQ →
       eventDelta pIdx i atQ rest stack ms observed = .ok (ms1, obs1) →
       stack.getLast? ≠ some frame →
       runEvented pIdx frameCount (.obj ev :: rest) i stack ms observed
         = .error (.unbalancedStack pIdx i stack.getLast? frame))
    ∧ parseSpeedscopeProfile mismatchedCloseDoc
        = .error (.unbalancedStack 0 1 (some 0) 1)
    ∧ parseSpeedscopeProfile emptyStackCloseDoc
        = .error (.unbalancedStack 0 0 none 0) := by
  refine ⟨?_, by decide, by decide⟩
  intro pIdx frameCount i ev rest stack ms ms1 observed obs1 frame atQ
    htype hframe hat hdelta hmis
  simp only [runEvented, asRecord, htype, hframe, hat, hdelta]
  rw [if_neg (by decide : ¬("C" : String) = "O"), if_pos trivial]
  cases hlast : stack.getLast? with
  | none => rfl
  | some closing =>
      have hcf : ¬closing = frame := fun hh => hmis (by rw [hlast, hh])
      simp [hcf]

/-- Witness for C2: a `Close(0)` as the sole event with an empty stack hits
the unbalanced-stack error. -/
theorem close_event_unbalanced_witness :
    runEvented 0 1
      [JsVal.obj [("type", .str "C"), ("frame", .num 0), ("at", .num 0)]]
      0 [] [] 0
      = .error (.unbalancedStack 0 0 none 0) :=
  close_event_unbalanced.1 0 1 0
    [("type", .str "C"), ("frame", .num 0), ("at", .num 0)]
    [] [] [] [] 0 0 0 0
    (by decide) (by decide) (by decide) (by decide) (by decide)

/-- Claim C4: `selfTime ≤ totalTime` holds for every frame after any single
step of the sampled aggregator (`processSample`) and of the evented delta
attribution (`eventDelta`) — hence after any prefix of their work — it holds
of the whole frame table whenever the accumulation phase succeeds, and in
every successful parse the ranked output satisfies
`selfTimeMs ≤ totalTimeMs` for every hotspot. -/
theorem metrics_self_le_total :
    (∀ (pIdx sIdx frameCount : ℕ) (weights : List JsVal) (v : JsVal)
       (ms ms1 : List FrameMetrics) (observed obs1 : ℚ),
       MetricsLE ms →
       processSample pIdx sIdx frameCount weights v ms observed
         = .ok (ms1, obs1) →
       MetricsLE ms1)
    ∧ (∀ (pIdx i : ℕ) (atQ : ℚ) (rest : List JsVal) (stack : List ℕ)
         (ms ms1 : List FrameMetrics) (observed obs1 : ℚ),
         MetricsLE ms →
         eventDelta pIdx i atQ rest stack ms observed = .ok (ms1, obs1) →
         MetricsLE ms1)
    ∧ (∀ (payload : JsVal) (ms : List FrameMetrics) (total : ℚ) (pcount : ℕ),
         processDocument payload = .ok (ms, total, pcount) → MetricsLE ms)
    ∧ (∀ (payload : JsVal) (s : ParsedProfileSummary),
         parseSpeedscopeProfile payload = .ok s → SummarySelfLeTotal s) := by
  refine ⟨?_, ?_, ?_, ?_⟩
  · intro pIdx sIdx frameCount weights v ms ms1 observed obs1 hle h
    exact processSample_preserves hle h
  · intro pIdx i atQ rest stack ms ms1 observed obs1 hle h
    exact eventDelta_preserves hle h
  · intro payload ms total pcount h
    exact processDocument_metricsLE h
  · intro payload s h
    obtain ⟨ms, total, pcount, hdoc, hz, hs⟩ := parse_ok_structure h
    subst hs
    intro hh hm
    exact rankHotspots_selfLe (processDocument_metricsLE hdoc) hh hm

/-- Witness for C4: the end-to-end component applied to the concrete sampled
example document. -/
theorem metrics_self_le_total_witness : SummarySelfLeTotal sampledSummary :=
  metrics_self_le_total.2.2.2 sampledDoc sampledSummary (by decide)

/-- Claim C5: the parse fails with `NoMeasurableActivity` exactly when the
validation-and-accumulation phase (`processDocument`) succeeds with grand
total observed time `≤ 0`; in particular the structurally valid sampled
document whose weights are all `≤ 0` fails this way. -/
theorem noMeasurable_iff :
    (∀ payload,
      parseSpeedscopeProfile payload = .error .noMeasurableActivity ↔
        ∃ ms total pcount,
          processDocument payload = .ok (ms, total, pcount) ∧ total ≤ 0)
    ∧ parseSpeedscopeProfile nonPositiveWeightsDoc
        = .error .noMeasurableActivity := by
  constructor
  · intro payload
    constructor
    · intro h
      unfold parseSpeedscopeProfile at h
      cases hd : processDocument payload with
      | error err =>
          simp only [hd, Except.error.injEq] at h
          subst h
          exact absurd hd processDocument_ne_noMeasurable
      | ok q =>
          obtain ⟨ms, total, pcount⟩ := q
          simp only [hd] at h
          by_cases hz : total ≤ 0
          · exact ⟨ms, total, pcount, rfl, hz⟩
          · rw [if_neg hz] at h
            exact absurd h (by simp)
    · rintro ⟨ms, total, pcount, hd, hz⟩
      unfold parseSpeedscopeProfile
      rw [hd]
      simp only [if_pos hz]
  · decide

/-- Witness for C5: the iff applied at the all-non-positive-weights document
with the accumulation phase evaluated concretely. -/
theorem noMeasurable_iff_witness :
    parseSpeedscopeProfile nonPositiveWeightsDoc
      = .error .noMeasurableActivity :=
  (noMeasurable_iff.1 nonPositiveWeightsDoc).mpr
    ⟨[{ name := "f", file := "unknown", selfTime := 0, totalTime := 0,
        sampleCount := 0, hotspotScore := 0 }], 0, 1, by decide, by decide⟩

/-- Claim C6: a sample whose stack is absent / not an array / an empty array,
or whose resolved weight is `≤ 0`, is skipped without error and contributes
nothing: the metrics map and observed total are returned unchanged. -/
theorem sample_skip_contributes_nothing :
    ∀ (pIdx sIdx frameCount : ℕ) (weights : List JsVal) (v : JsVal)
      (ms : List FrameMetrics) (observed : ℚ),
      ((∀ xs, v ≠ .arr xs) ∨ v = .arr [] ∨
        ∃ w, resolveWeight pIdx sIdx weights = .ok w ∧ w ≤ 0) →
      processSample pIdx sIdx frameCount weights v ms observed
        = .ok (ms, observed) := by
  intro pIdx sIdx frameCount weights v ms observed h
  cases v with
  | arr stack =>
      rcases h with h | h | h
      · exact absurd rfl (h stack)
      · injection h with h'
        subst h'
        simp [processSample]
      · obtain ⟨w, hw, hle⟩ := h
        simp only [processSample]
        split
        · rfl
        · simp only [hw]
          rw [if_pos hle]
  | undef => simp [processSample]
  | null => simp [processSample]
  | bool b => simp [processSample]
  | num q => simp [processSample]
  | str s => simp [processSample]
  | obj o => simp [processSample]

/-- Witness for C6: a non-array stack and a resolved weight `-1 ≤ 0`, each
leaving state untouched. -/
theorem sample_skip_contributes_nothing_witness :
    processSample 0 0 1 [] (.str "bad") [] 0 = .ok ([], 0)
    ∧ processSample 0 3 1 [.num 2, .num 2, .num 2, .num (-1)]
        (.arr [.num 0]) [] 5 = .ok ([], 5) :=
  ⟨sample_skip_contributes_nothing 0 0 1 [] (.str "bad") [] 0
      (.inl (fun xs hh => JsVal.noConfusion hh)),
   sample_skip_contributes_nothing 0 3 1 [.num 2, .num 2, .num 2, .num (-1)]
      (.arr [.num 0]) [] 5 (.inr (.inr ⟨-1, by decide, by decide⟩))⟩

/-- Claim C7: in every successful parse the hotspots are sorted
non-increasingly by the composite score `0.6·inclusivePct +
0.4·exclusivePct`, and the rank fields are exactly `1..N` in listed order. -/
theorem hotspots_sorted_and_ranks_dense :
    ∀ (payload : JsVal) (s : ParsedProfileSummary),
      parseSpeedscopeProfile payload = .ok s →
      List.Sorted scoreGE s.hotspots ∧
      s.hotspots.map Hotspot.rank = List.range' 1 s.hotspots.length := by
  intro payload s h
  obtain ⟨ms, total, pcount, hdoc, hz, hs⟩ := parse_ok_structure h
  subst hs
  exact ⟨rankHotspots_sorted ms total, rankHotspots_ranks ms total⟩

/-- Witness for C7: applied to the concrete evented example document. -/
theorem hotspots_sorted_and_ranks_dense_witness :
    List.Sorted scoreGE eventedSummary.hotspots ∧
    eventedSummary.hotspots.map Hotspot.rank
      = List.range' 1 eventedSummary.hotspots.length :=
  hotspots_sorted_and_ranks_dense eventedDoc eventedSummary (by decide)

/-- Claim C8: a sample stack listing the same frame twice (`[0, 0]`) makes
that frame's `totalTime` exceed the grand total, so its reported
`inclusivePct` exceeds 100 (here 200) on a valid input. -/
theorem recursion_inclusive_exceeds_100 :
    parseSpeedscopeProfile recursiveDoc = .ok recursiveSummary
    ∧ recursiveSummary.totalSamples = 1
    ∧ ∃ h ∈ recursiveSummary.hotspots,
        100 < h.inclusivePct ∧ (1 : ℚ) < h.totalTimeMs := by
  refine ⟨by decide, by decide, ?_⟩
  refine ⟨{ name := "r", file := "unknown", selfTimeMs := 1, totalTimeMs := 2,
            sampleCount := 2, inclusivePct := 200, exclusivePct := 100,
            rank := 1 }, by decide, by decide, by decide⟩

/-- Claim C9: with a non-empty weights array shorter than the samples array,
the first non-skipped sample whose index is past the end of the weights reads
`undefined` there, and the parse fails with the invalid-weight error instead
of defaulting the weight to 1; `shortWeightsDoc` shows it end to end. -/
theorem short_weights_invalid_weight :
    (∀ (pIdx sIdx frameCount : ℕ) (weights stack : List JsVal)
       (ms : List FrameMetrics) (observed : ℚ),
       weights ≠ [] → weights.length ≤ sIdx → stack ≠ [] →
       processSample pIdx sIdx frameCount weights (.arr stack) ms observed
         = .error (.invalidWeight pIdx sIdx))
    ∧ parseSpeedscopeProfile shortWeightsDoc
        = .error (.invalidWeight 0 1) := by
  refine ⟨?_, by decide⟩
  intro pIdx sIdx frameCount weights stack ms observed hw hlen hstack
  simp only [processSample]
  rw [if_neg (by simpa [List.isEmpty_iff] using hstack)]
  have hres : resolveWeight pIdx sIdx weights
      = .error (.invalidWeight pIdx sIdx) := by
    unfold resolveWeight
    rw [if_pos (by exact List.length_pos.mpr hw)]
    rw [List.getD_eq_default _ _ hlen]
    rfl
  rw [hres]

/-- Witness for C9: two samples, a single weight, the second sample fails. -/
theorem short_weights_invalid_weight_witness :
    processSample 0 1 1 [.num 1] (.arr [.num 0]) [] 0
      = .error (.invalidWeight 0 1) :=
  short_weights_invalid_weight.1 0 1 1 [.num 1] [.num 0] [] 0
    (by simp) (by decide) (by simp)

/-- Claim C10: a `weights` field holding a non-array value is treated exactly
as an absent one: the extracted weight list is empty, the parse of the profile
entry is unchanged, and every sample's weight resolves to the default `1`. -/
theorem weights_non_array_ignored :
    ∀ (pIdx frameCount : ℕ) (ms : List FrameMetrics)
      (rest : List (String × JsVal)) (v : JsVal),
      (∀ xs, v ≠ .arr xs) →
      parseSampledProfile (("weights", v) :: rest) frameCount ms pIdx
        = parseSampledProfile (("weights", JsVal.undef) :: rest) frameCount ms pIdx
      ∧ weightsOf (("weights", v) :: rest) = []
      ∧ ∀ sIdx, resolveWeight pIdx sIdx (weightsOf (("weights", v) :: rest))
          = .ok 1 := by
  intro pIdx frameCount ms rest v hv
  have hw : weightsOf (("weights", v) :: rest) = [] := by
    unfold weightsOf
    rw [getField, if_pos rfl]
    cases v <;> simp
    case arr xs => exact absurd rfl (hv xs)
  have hwu : weightsOf (("weights", JsVal.undef) :: rest) = [] := by
    unfold weightsOf
    rw [getField, if_pos rfl]
  refine ⟨?_, hw, fun sIdx => by simp [hw, resolveWeight]⟩
  unfold parseSampledProfile
  have hs : getField (("weights", v) :: rest) "samples"
      = getField rest "samples" := by
    rw [getField, if_neg (by decide)]
  have hsu : getField (("weights", JsVal.undef) :: rest) "samples"
      = getField rest "samples" := by
    rw [getField, if_neg (by decide)]
  rw [hs, hsu, hw, hwu]

/-- Witness for C10: a string-valued `weights` field behaves as absent. -/
theorem weights_non_array_ignored_witness :
    parseSampledProfile [("weights", JsVal.str "nope")] 1 [] 0
      = parseSampledProfile [("weights", JsVal.undef)] 1 [] 0
    ∧ resolveWeight 0 5 (weightsOf [("weights", JsVal.str "nope")]) = .ok 1 :=
  have happ := weights_non_array_ignored 0 1 [] [] (JsVal.str "nope")
    (fun xs hh => JsVal.noConfusion hh)
  ⟨happ.1, happ.2.2 5⟩

end ClaimProofs

end Speedscope
